import Mathlib

/-!
Verification development for the safe serialization core of the
UX-ONBOARDING repository (the TOON codec wrapper in
`src/app/api/onboarding/conversational-chat/route.ts`).

Strings are modelled as `List Char` (JS strings at code-point level; every
character the code inspects lies in the basic plane, so code points and
UTF-16 units agree on the relevant classes).  The external compact codec
(`toonEncode` / `toonDecode`) and the JSON codec are black boxes; functions
that may throw are modelled as `Except`-returning parameters, and the
wrapper's `try`/`catch` blocks become `match`es on those `Except` values.
-/

/-- Characters JS `\s` matches (ECMA-262 WhiteSpace ∪ LineTerminator);
`String.prototype.trim` strips the same set. -/
def isJsWhitespace (c : Char) : Bool :=
  c.toNat = 0x09 || c.toNat = 0x0A || c.toNat = 0x0B || c.toNat = 0x0C ||
  c.toNat = 0x0D || c.toNat = 0x20 || c.toNat = 0xA0 || c.toNat = 0x1680 ||
  (0x2000 ≤ c.toNat && c.toNat ≤ 0x200A) || c.toNat = 0x2028 ||
  c.toNat = 0x2029 || c.toNat = 0x202F || c.toNat = 0x205F ||
  c.toNat = 0x3000 || c.toNat = 0xFEFF

/-- JS `text.trim()` on a code-point list: drop whitespace from both ends. -/
def trimChars (s : List Char) : List Char :=
  ((s.dropWhile isJsWhitespace).reverse.dropWhile isJsWhitespace).reverse

/- Section: sanitizer character sets (`sanitizeForToon`, route.ts lines 258-268) -/

/-- Smart single quotes (U+2018, U+2019). -/
def isSmartSingle (c : Char) : Bool :=
  c.toNat = 0x2018 || c.toNat = 0x2019

/-- Smart double quotes (U+201C, U+201D). -/
def isSmartDouble (c : Char) : Bool :=
  c.toNat = 0x201C || c.toNat = 0x201D

/-- The literal double-quote character. -/
def isDoubleQuote (c : Char) : Bool := c.toNat = 0x22

/-- Zero-width characters (U+200B-U+200D) and the BOM (U+FEFF). -/
def isZeroWidth (c : Char) : Bool :=
  (0x200B ≤ c.toNat && c.toNat ≤ 0x200D) || c.toNat = 0xFEFF

/-- Non-breaking space (U+00A0). -/
def isNbsp (c : Char) : Bool := c.toNat = 0xA0

/-- ASCII control characters (0x00-0x1F and 0x7F). -/
def isCtrl (c : Char) : Bool := c.toNat ≤ 0x1F || c.toNat = 0x7F

/-- The backslash character. -/
def isBackslash (c : Char) : Bool := c.toNat = 0x5C

/-- Straight apostrophe, the replacement for all quote rules. -/
def aposChar : Char := Char.ofNat 0x27

/-- Forward slash, the replacement for backslashes. -/
def slashChar : Char := Char.ofNat 0x2F

/-- Regular space, the replacement for non-breaking spaces. -/
def spaceChar : Char := Char.ofNat 0x20

/-- Pass 1: `.replace(/[‘’]/g, "'")`. -/
def mapSmartSingle (c : Char) : Char := if isSmartSingle c then aposChar else c

/-- Pass 2: `.replace(/[“”]/g, "'")`. -/
def mapSmartDouble (c : Char) : Char := if isSmartDouble c then aposChar else c

/-- Pass 3: `.replace(/"/g, "'")`. -/
def mapDoubleQuote (c : Char) : Char := if isDoubleQuote c then aposChar else c

/-- Pass 5: `.replace(/ /g, ' ')`. -/
def mapNbsp (c : Char) : Char := if isNbsp c then spaceChar else c

/-- Pass 7: `.replace(/\\/g, '/')`. -/
def mapBackslash (c : Char) : Char := if isBackslash c then slashChar else c

/-- The string branch of `sanitizeForToon`: the seven `.replace` passes, in
source order.  Each JS regex here is a single-character class replaced or
deleted globally, so each pass is a `map` or a `filter` over the string
(passes 4 and 6 delete their class). -/
def sanitizeForToonString (s : List Char) : List Char :=
  ((((((s.map mapSmartSingle).map mapSmartDouble).map
    mapDoubleQuote).filter
    (fun c => !isZeroWidth c)).map mapNbsp).filter
    (fun c => !isCtrl c)).map mapBackslash

/- Section: StructuredValue -/

/-- JSON-representable values (`StructuredValue` in the spec): the closed
sum the sanitizer walks.  Object fields keep insertion order. -/
inductive SV where
  | null : SV
  | bool : Bool → SV
  | num : Int → SV
  | str : List Char → SV
  | arr : List SV → SV
  | obj : List (List Char × SV) → SV

mutual

/-- Source `sanitizeForToon` (route.ts lines 258-280): rewrite string leaves with
`sanitizeForToonString`, recurse through arrays element-wise and objects
value-wise (keys untouched), pass all other scalars through. -/
def sanitizeForToon : SV → SV
  | SV.null => SV.null
  | SV.bool b => SV.bool b
  | SV.num n => SV.num n
  | SV.str s => SV.str (sanitizeForToonString s)
  | SV.arr xs => SV.arr (sanitizeForToonList xs)
  | SV.obj fs => SV.obj (sanitizeForToonFields fs)

/-- Array branch: `obj.map(sanitizeForToon)` on the elements. -/
def sanitizeForToonList : List SV → List SV
  | [] => []
  | x :: xs => sanitizeForToon x :: sanitizeForToonList xs

/-- The `Object.entries` loop: sanitize each value, keep each key. -/
def sanitizeForToonFields : List (List Char × SV) → List (List Char × SV)
  | [] => []
  | (k, v) :: fs => (k, sanitizeForToon v) :: sanitizeForToonFields fs

end

/- Section: fence stripper (`extractFromCodeBlock`, route.ts lines 241-245)

The regex is `/```(?:toon|json)?\s*([\s\S]*?)```/` with `.match`, i.e.
leftmost match.  Since the pattern begins with three backticks, candidate
starting positions are exactly the occurrences of a backtick triple; at the
first such position the match succeeds iff another triple occurs later
(the empty-tag alternative covers every text the tagged alternatives
would), and if it fails there it fails everywhere.  The captured group runs
from after the optional tag (and any whitespace, which the final `.trim()`
makes irrelevant) up to the next backtick triple, lazily. -/

/-- The backtick character. -/
def backtick : Char := Char.ofNat 0x60

/-- Three backticks — a fence delimiter. -/
def tripleList : List Char := [backtick, backtick, backtick]

/-- Does the list start with three backticks? -/
def startsWithTriple (l : List Char) : Bool :=
  decide (l.take 3 = tripleList)

/-- Split at the first backtick triple: `some (before, after)` with the
triple itself consumed, `none` when no triple occurs. -/
def splitAtTriple : List Char → Option (List Char × List Char)
  | [] => none
  | c :: rest =>
    if startsWithTriple (c :: rest) then some ([], rest.drop 2)
    else (splitAtTriple rest).map (fun pr => (c :: pr.1, pr.2))

/-- Does a backtick triple occur anywhere in the list? -/
def hasTriple (l : List Char) : Bool :=
  (splitAtTriple l).isSome

/-- Does `p` start the list `s`? (both lists of characters) -/
def startsWithText (p s : List Char) : Bool :=
  decide (s.take p.length = p)

/-- Source `extractFromCodeBlock` (route.ts lines 241-245): return the trimmed
interior of the first fenced block when one exists, else the trimmed
input.  `rest.drop 4` consumes the optional `toon`/`json` tag that the
regex alternation prefers when it is present. -/
def extractFromCodeBlock (text : List Char) : List Char :=
  match splitAtTriple text with
  | none => trimChars text
  | some (_, rest) =>
    if hasTriple rest then
      let rest' :=
        if startsWithText ("toon".toList) rest then rest.drop 4
        else if startsWithText ("json".toList) rest then rest.drop 4
        else rest
      match splitAtTriple rest' with
      | some (content, _) => trimChars content
      | none => trimChars text
    else trimChars text

/- Section: result types and the safe wrappers -/

/-- The `format` tag of `ToonDecodeResult`. -/
inductive TFormat where
  | toon : TFormat
  | json : TFormat
  | failed : TFormat
deriving DecidableEq

/-- Source `ToonDecodeResult` (route.ts lines 285-289).  `data` is a JS value;
the failure branch stores JS `null`, which is the same value a decoder
returning the null document produces. -/
structure ToonDecodeResult where
  data : SV
  format : TFormat
  error : Option (List Char)

/-- Source `ToonEncodeResult` (route.ts lines 333-336): format is `toon` or
`json` by construction. -/
structure ToonEncodeResult where
  encoded : List Char
  format : TFormat

/-- The combined diagnostic of the total-failure branch:
``TOON: ${toonError}, JSON: ${jsonError}``. -/
def failMessage (toonErr jsonErr : List Char) : List Char :=
  "TOON: ".toList ++ toonErr ++ ", JSON: ".toList ++ jsonErr

/-- Steps 2-4 of `safeToonDecode`: try the compact decoder, fall back to
JSON, and only then report failure.  `tdec` and `jparse` are the external
decoders; a thrown exception is an `Except.error` carrying its message. -/
def decodeSteps (tdec : List Char → Except (List Char) SV)
    (jparse : List Char → Except (List Char) SV)
    (content : List Char) : Except (List Char) ToonDecodeResult :=
  match tdec content with
  | Except.ok data => Except.ok ⟨data, TFormat.toon, none⟩
  | Except.error toonErr =>
    match jparse content with
    | Except.ok data => Except.ok ⟨data, TFormat.json, none⟩
    | Except.error jsonErr =>
      Except.ok ⟨SV.null, TFormat.failed, some (failMessage toonErr jsonErr)⟩

/-- Source `safeToonDecode` (route.ts lines 304-328): extract from a code block,
then run the two-tier decode chain.  Every branch is `Except.ok`: both
`catch` blocks convert the underlying exception into a result value. -/
def safeToonDecode (tdec jparse : List Char → Except (List Char) SV)
    (text : List Char) : Except (List Char) ToonDecodeResult :=
  decodeSteps tdec jparse (extractFromCodeBlock text)

/-- Source `safeToonEncode` (route.ts lines 350-361): sanitize, try the compact
encoder, fall back to JSON-stringifying the ORIGINAL (unsanitized) data.
`tenc` may throw (`Except.error`); `jstringify` is total for acyclic
values, as `JSON.stringify` is. -/
def safeToonEncode (tenc : SV → Except (List Char) (List Char))
    (jstringify : SV → List Char) (data : SV) :
    Except (List Char) ToonEncodeResult :=
  match tenc (sanitizeForToon data) with
  | Except.ok encoded => Except.ok ⟨encoded, TFormat.toon⟩
  | Except.error _ => Except.ok ⟨jstringify data, TFormat.json⟩

/-- Source `safeToonEncodeString` (route.ts lines 366-369): drop the format tag. -/
def safeToonEncodeString (tenc : SV → Except (List Char) (List Char))
    (jstringify : SV → List Char) (data : SV) :
    Except (List Char) (List Char) :=
  match safeToonEncode tenc jstringify data with
  | Except.ok r => Except.ok r.encoded
  | Except.error e => Except.error e


/-- Does the text contain a complete fenced block (an opening triple with a
later closing triple)?  This is exactly the condition under which the
source regex matches. -/
def hasFencedBlock (text : List Char) : Bool :=
  match splitAtTriple text with
  | none => false
  | some (_, rest) => hasTriple rest

/-- A character some sanitizer rule rewrites or deletes. -/
def touchedChar (c : Char) : Bool :=
  isSmartSingle c || isSmartDouble c || isDoubleQuote c || isZeroWidth c ||
  isNbsp c || isCtrl c || isBackslash c

mutual

/-- No string leaf of the value contains a character any sanitizer rule
would rewrite or delete ("ASCII-safe" in the spec's round-trip property). -/
def asciiSafeSV : SV → Bool
  | SV.null => true
  | SV.bool _ => true
  | SV.num _ => true
  | SV.str s => s.all (fun c => !touchedChar c)
  | SV.arr xs => asciiSafeList xs
  | SV.obj fs => asciiSafeFields fs

/-- Conjunction of `asciiSafeSV` over an array's elements. -/
def asciiSafeList : List SV → Bool
  | [] => true
  | x :: xs => asciiSafeSV x && asciiSafeList xs

/-- Conjunction of `asciiSafeSV` over an object's values. -/
def asciiSafeFields : List (List Char × SV) → Bool
  | [] => true
  | (_, v) :: fs => asciiSafeSV v && asciiSafeFields fs

end

/- Section: concrete codec instances (used to evaluate the theorems on
concrete inputs) -/

/-- A compact decoder that rejects every input. -/
def tdecAlwaysFail : List Char → Except (List Char) SV :=
  fun _ => Except.error ("toon failure".toList)

/-- A JSON parser that (correctly) parses the document `null` and rejects
everything else. -/
def jparseNullOnly : List Char → Except (List Char) SV :=
  fun s => if s = "null".toList then Except.ok SV.null
    else Except.error ("json failure".toList)

/-- A compact encoder that throws on every input (the spec's simulated
always-raising codec). -/
def tencAlwaysFail : SV → Except (List Char) (List Char) :=
  fun _ => Except.error ("encode failure".toList)

/-- A JSON stringifier that renders every value as `null` (correct on the
null document, which is the only value the witnesses feed it). -/
def jstringifyNull : SV → List Char := fun _ => "null".toList

/-- A tiny compact codec over string documents: encode marks the string
with a leading `S`. -/
def tencStr : SV → Except (List Char) (List Char) := fun w =>
  match w with
  | SV.str s => Except.ok (Char.ofNat 0x53 :: s)
  | _ => Except.error ("unsupported".toList)

/-- Inverse of `tencStr`. -/
def tdecStr : List Char → Except (List Char) SV := fun t =>
  match t with
  | c :: s => if c = Char.ofNat 0x53 then Except.ok (SV.str s)
      else Except.error ("bad input".toList)
  | [] => Except.error ("bad input".toList)

/-- Modelled from the spec: the `DecodeResult` invariant exactly as §3
states it — `data` is non-null iff `format` is compact or json, and
`failed` implies null data with a populated error. -/
def decodeInvariantSpec (r : ToonDecodeResult) : Prop :=
  ((¬ r.data = SV.null) ↔
    (r.format = TFormat.toon ∨ r.format = TFormat.json)) ∧
  (r.format = TFormat.failed → r.data = SV.null ∧ ∃ e, r.error = some e)

/- Section: generic list helpers -/

theorem listMapSelf {α : Type} (f : α → α) :
    ∀ l : List α, (∀ x ∈ l, f x = x) → l.map f = l
  | [], _ => rfl
  | x :: xs, h => by
    have hx := h x (by simp)
    have hxs := listMapSelf f xs (fun y hy => h y (by simp [hy]))
    simp [hx, hxs]

theorem listFilterSelf {α : Type} (g : α → Bool) :
    ∀ l : List α, (∀ x ∈ l, g x = true) → l.filter g = l
  | [], _ => rfl
  | x :: xs, h => by
    have hx := h x (by simp)
    have hxs := listFilterSelf g xs (fun y hy => h y (by simp [hy]))
    simp [List.filter, hx, hxs]

/- Section: sanitizer character lemmas -/

theorem touchedChar_false_parts {c : Char} (h : touchedChar c = false) :
    isSmartSingle c = false ∧ isSmartDouble c = false ∧
    isDoubleQuote c = false ∧ isZeroWidth c = false ∧ isNbsp c = false ∧
    isCtrl c = false ∧ isBackslash c = false := by
  simp only [touchedChar, Bool.or_eq_false_iff] at h
  exact ⟨h.1.1.1.1.1.1, h.1.1.1.1.1.2, h.1.1.1.1.2, h.1.1.1.2, h.1.1.2,
    h.1.2, h.2⟩

/-- Every character produced by the sanitizer chain is untouched by every
rule: the replacement outputs (apostrophe, space, slash) lie outside all
seven classes, and a character that survives unchanged was outside them
already. -/
theorem chain_output_untouched (c0 : Char)
    (hzw : isZeroWidth (mapDoubleQuote (mapSmartDouble (mapSmartSingle c0))) = false)
    (hctrl : isCtrl (mapNbsp (mapDoubleQuote (mapSmartDouble (mapSmartSingle c0)))) = false) :
    touchedChar
      (mapBackslash (mapNbsp (mapDoubleQuote (mapSmartDouble (mapSmartSingle c0))))) = false := by
  by_cases h1 : isSmartSingle c0 = true
  · have e1 : mapSmartSingle c0 = aposChar := by simp [mapSmartSingle, h1]
    rw [e1]; decide
  · have e1 : mapSmartSingle c0 = c0 := by simp [mapSmartSingle, h1]
    rw [e1] at hzw hctrl ⊢
    by_cases h2 : isSmartDouble c0 = true
    · have e2 : mapSmartDouble c0 = aposChar := by simp [mapSmartDouble, h2]
      rw [e2]; decide
    · have e2 : mapSmartDouble c0 = c0 := by simp [mapSmartDouble, h2]
      rw [e2] at hzw hctrl ⊢
      by_cases h3 : isDoubleQuote c0 = true
      · have e3 : mapDoubleQuote c0 = aposChar := by simp [mapDoubleQuote, h3]
        rw [e3]; decide
      · have e3 : mapDoubleQuote c0 = c0 := by simp [mapDoubleQuote, h3]
        rw [e3] at hzw hctrl ⊢
        by_cases h5 : isNbsp c0 = true
        · have e5 : mapNbsp c0 = spaceChar := by simp [mapNbsp, h5]
          rw [e5]; decide
        · have e5 : mapNbsp c0 = c0 := by simp [mapNbsp, h5]
          rw [e5] at hctrl ⊢
          by_cases h7 : isBackslash c0 = true
          · have e7 : mapBackslash c0 = slashChar := by simp [mapBackslash, h7]
            rw [e7]; decide
          · have e7 : mapBackslash c0 = c0 := by simp [mapBackslash, h7]
            rw [e7]
            simp only [Bool.not_eq_true] at h1 h2 h3 h5 h7
            simp [touchedChar, h1, h2, h3, h5, h7, hzw, hctrl]

/-- Membership in a sanitized string forces the character outside every
rule's class. -/
theorem mem_sanitizeForToonString {c : Char} {s : List Char}
    (h : c ∈ sanitizeForToonString s) : touchedChar c = false := by
  unfold sanitizeForToonString at h
  obtain ⟨x6, hx6, rfl⟩ := List.mem_map.mp h
  obtain ⟨hx6m, hctrl⟩ := List.mem_filter.mp hx6
  obtain ⟨x4, hx4, rfl⟩ := List.mem_map.mp hx6m
  obtain ⟨hx4m, hzw⟩ := List.mem_filter.mp hx4
  obtain ⟨x2, hx2, rfl⟩ := List.mem_map.mp hx4m
  obtain ⟨x1, hx1, rfl⟩ := List.mem_map.mp hx2
  obtain ⟨x0, hx0, rfl⟩ := List.mem_map.mp hx1
  exact chain_output_untouched x0 (by simpa using hzw) (by simpa using hctrl)

/-- A string whose characters are all untouched is a fixed point of the
string sanitizer. -/
theorem sanitizeForToonString_fixed {s : List Char}
    (h : ∀ c ∈ s, touchedChar c = false) :
    sanitizeForToonString s = s := by
  unfold sanitizeForToonString
  have h1 : s.map mapSmartSingle = s := by
    refine listMapSelf _ s (fun c hc => ?_)
    simp [mapSmartSingle, (touchedChar_false_parts (h c hc)).1]
  rw [h1]
  have h2 : s.map mapSmartDouble = s := by
    refine listMapSelf _ s (fun c hc => ?_)
    simp [mapSmartDouble, (touchedChar_false_parts (h c hc)).2.1]
  rw [h2]
  have h3 : s.map mapDoubleQuote = s := by
    refine listMapSelf _ s (fun c hc => ?_)
    simp [mapDoubleQuote, (touchedChar_false_parts (h c hc)).2.2.1]
  rw [h3]
  have h4 : s.filter (fun c => !isZeroWidth c) = s := by
    refine listFilterSelf _ s (fun c hc => ?_)
    simp [(touchedChar_false_parts (h c hc)).2.2.2.1]
  rw [h4]
  have h5 : s.map mapNbsp = s := by
    refine listMapSelf _ s (fun c hc => ?_)
    simp [mapNbsp, (touchedChar_false_parts (h c hc)).2.2.2.2.1]
  rw [h5]
  have h6 : s.filter (fun c => !isCtrl c) = s := by
    refine listFilterSelf _ s (fun c hc => ?_)
    simp [(touchedChar_false_parts (h c hc)).2.2.2.2.2.1]
  rw [h6]
  refine listMapSelf _ s (fun c hc => ?_)
  simp [mapBackslash, (touchedChar_false_parts (h c hc)).2.2.2.2.2.2]

/-- Idempotence of the string sanitizer. -/
theorem sanitizeForToonString_idem (s : List Char) :
    sanitizeForToonString (sanitizeForToonString s) = sanitizeForToonString s :=
  sanitizeForToonString_fixed (fun _ hc => mem_sanitizeForToonString hc)

/- Section: StructuredValue-level sanitizer lemmas -/

theorem sanitizeForToonList_eq_map : ∀ xs : List SV,
    sanitizeForToonList xs = xs.map sanitizeForToon
  | [] => rfl
  | x :: xs => by
    simp [sanitizeForToonList, sanitizeForToonList_eq_map xs]

theorem sanitizeForToonFields_eq_map : ∀ fs : List (List Char × SV),
    sanitizeForToonFields fs = fs.map (fun kv => (kv.1, sanitizeForToon kv.2))
  | [] => rfl
  | (k, v) :: fs => by
    simp [sanitizeForToonFields, sanitizeForToonFields_eq_map fs]

mutual

theorem sanitizeForToon_idem : ∀ v : SV,
    sanitizeForToon (sanitizeForToon v) = sanitizeForToon v
  | SV.null => rfl
  | SV.bool _ => rfl
  | SV.num _ => rfl
  | SV.str s => by
    simp [sanitizeForToon, sanitizeForToonString_idem s]
  | SV.arr xs => by
    simp [sanitizeForToon, sanitizeForToonList_idem xs]
  | SV.obj fs => by
    simp [sanitizeForToon, sanitizeForToonFields_idem fs]

theorem sanitizeForToonList_idem : ∀ xs : List SV,
    sanitizeForToonList (sanitizeForToonList xs) = sanitizeForToonList xs
  | [] => rfl
  | x :: xs => by
    simp [sanitizeForToonList, sanitizeForToon_idem x,
      sanitizeForToonList_idem xs]

theorem sanitizeForToonFields_idem : ∀ fs : List (List Char × SV),
    sanitizeForToonFields (sanitizeForToonFields fs) = sanitizeForToonFields fs
  | [] => rfl
  | (k, v) :: fs => by
    simp [sanitizeForToonFields, sanitizeForToon_idem v,
      sanitizeForToonFields_idem fs]

end


mutual

theorem sanitizeForToon_fixed : ∀ v : SV, asciiSafeSV v = true →
    sanitizeForToon v = v
  | SV.null, _ => rfl
  | SV.bool _, _ => rfl
  | SV.num _, _ => rfl
  | SV.str s, h => by
    have hall : ∀ c ∈ s, touchedChar c = false := by
      simpa [asciiSafeSV, List.all_eq_true] using h
    simp [sanitizeForToon, sanitizeForToonString_fixed hall]
  | SV.arr xs, h => by
    simp [sanitizeForToon,
      sanitizeForToonList_fixed xs (by simpa [asciiSafeSV] using h)]
  | SV.obj fs, h => by
    simp [sanitizeForToon,
      sanitizeForToonFields_fixed fs (by simpa [asciiSafeSV] using h)]

theorem sanitizeForToonList_fixed : ∀ xs : List SV, asciiSafeList xs = true →
    sanitizeForToonList xs = xs
  | [], _ => rfl
  | x :: xs, h => by
    have hx : asciiSafeSV x = true := by
      have := h; simp [asciiSafeList] at this; exact this.1
    have hxs : asciiSafeList xs = true := by
      have := h; simp [asciiSafeList] at this; exact this.2
    simp [sanitizeForToonList, sanitizeForToon_fixed x hx,
      sanitizeForToonList_fixed xs hxs]

theorem sanitizeForToonFields_fixed : ∀ fs : List (List Char × SV),
    asciiSafeFields fs = true → sanitizeForToonFields fs = fs
  | [], _ => rfl
  | (k, v) :: fs, h => by
    have hv : asciiSafeSV v = true := by
      have := h; simp [asciiSafeFields] at this; exact this.1
    have hfs : asciiSafeFields fs = true := by
      have := h; simp [asciiSafeFields] at this; exact this.2
    simp [sanitizeForToonFields, sanitizeForToon_fixed v hv,
      sanitizeForToonFields_fixed fs hfs]

end

/- Section: fence machinery lemmas -/

theorem startsWithTriple_cons_false {c : Char} (h : ¬ c = backtick)
    (l : List Char) : startsWithTriple (c :: l) = false := by
  simp [startsWithTriple, tripleList, List.take_succ_cons, h]

theorem splitAtTriple_tripleHead (x : List Char) :
    splitAtTriple (tripleList ++ x) = some ([], x) := by
  have hs : startsWithTriple (backtick :: backtick :: backtick :: x) = true := by
    simp [startsWithTriple, tripleList, List.take_succ_cons]
  show splitAtTriple (backtick :: backtick :: backtick :: x) = some ([], x)
  simp only [splitAtTriple, hs, if_true]
  simp

theorem splitAtTriple_append_free :
    ∀ a b : List Char, backtick ∉ a →
      splitAtTriple (a ++ b) =
        (splitAtTriple b).map (fun pr => (a ++ pr.1, pr.2))
  | [], b, _ => by cases h : splitAtTriple b <;> simp [h]
  | c :: a', b, h => by
    have hc : ¬ c = backtick := fun hc => h (by simp [hc])
    have ha' : backtick ∉ a' := fun hm => h (by simp [hm])
    have ih := splitAtTriple_append_free a' b ha'
    have hs := startsWithTriple_cons_false hc (a' ++ b)
    show splitAtTriple (c :: (a' ++ b)) = _
    simp only [splitAtTriple, hs, Bool.false_eq_true, if_false, ih]
    cases splitAtTriple b <;> simp

theorem hasTriple_append_left :
    ∀ a b : List Char, hasTriple b = true → hasTriple (a ++ b) = true
  | [], _, h => h
  | c :: a', b, h => by
    by_cases hs : startsWithTriple (c :: (a' ++ b)) = true
    · simp [hasTriple, splitAtTriple, hs]
    · have ih := hasTriple_append_left a' b h
      simp only [hasTriple] at ih ⊢
      simp [List.cons_append, splitAtTriple, hs, Option.isSome_map, ih]

theorem hasTriple_exists_parts :
    ∀ l : List Char, hasTriple l = true → ∃ a b, l = a ++ tripleList ++ b
  | [], h => by simp [hasTriple, splitAtTriple] at h
  | c :: rest, h => by
    by_cases hs : startsWithTriple (c :: rest) = true
    · have htake : (c :: rest).take 3 = tripleList := by
        simpa [startsWithTriple] using hs
      refine ⟨[], (c :: rest).drop 3, ?_⟩
      rw [List.nil_append]
      conv_lhs => rw [← List.take_append_drop 3 (c :: rest)]
      rw [htake]
    · simp only [hasTriple, splitAtTriple, hs, Bool.false_eq_true, if_false]
        at h
      have h' : hasTriple rest = true := by
        cases hsr : splitAtTriple rest with
        | none => rw [hsr] at h; simp at h
        | some pr => simp [hasTriple, hsr]
      obtain ⟨a, b, hab⟩ := hasTriple_exists_parts rest h'
      exact ⟨c :: a, b, by simp [hab]⟩

theorem hasTriple_of_parts (a b : List Char) :
    hasTriple (a ++ tripleList ++ b) = true := by
  rw [List.append_assoc]
  exact hasTriple_append_left a _
    (by simp [hasTriple, splitAtTriple_tripleHead b])

theorem hasTriple_reverse_of {l : List Char} (h : hasTriple l = true) :
    hasTriple l.reverse = true := by
  obtain ⟨a, b, rfl⟩ := hasTriple_exists_parts l h
  have : (a ++ tripleList ++ b).reverse =
      b.reverse ++ tripleList ++ a.reverse := by
    simp [List.reverse_append, tripleList]
  rw [this]
  exact hasTriple_of_parts _ _

theorem hasTriple_dropWhile :
    ∀ l : List Char, hasTriple l = true →
      hasTriple (l.dropWhile isJsWhitespace) = true
  | [], h => by simp [hasTriple, splitAtTriple] at h
  | c :: rest, h => by
    by_cases hw : isJsWhitespace c = true
    · have hcb : ¬ c = backtick := by
        intro hc; subst hc; revert hw; decide
      rw [List.dropWhile_cons_of_pos hw]
      have hr : hasTriple rest = true := by
        simpa [hasTriple, splitAtTriple, startsWithTriple_cons_false hcb,
          Option.isSome_map] using h
      exact hasTriple_dropWhile rest hr
    · rw [List.dropWhile_cons_of_neg hw]
      exact h

theorem hasTriple_trimChars {l : List Char} (h : hasTriple l = true) :
    hasTriple (trimChars l) = true := by
  unfold trimChars
  exact hasTriple_reverse_of
    (hasTriple_dropWhile _ (hasTriple_reverse_of (hasTriple_dropWhile _ h)))

theorem extract_of_not_fenced {t : List Char}
    (h : hasFencedBlock t = false) :
    extractFromCodeBlock t = trimChars t := by
  unfold extractFromCodeBlock
  cases hs : splitAtTriple t with
  | none => rfl
  | some pr =>
    have hrest : hasTriple pr.2 = false := by
      simpa [hasFencedBlock, hs] using h
    simp [hrest]

theorem startsWithText_append_self (p x : List Char) :
    startsWithText p (p ++ x) = true := by
  simp [startsWithText, List.take_left]

theorem startsWithText_toon_json (x : List Char) :
    startsWithText ("toon".toList) ("json".toList ++ x) = false := by
  have h4 : ("toon".toList).length = ("json".toList).length := rfl
  have ht : ("json".toList ++ x).take (("toon".toList).length) =
      "json".toList := by
    rw [h4, List.take_left]
  simp [startsWithText, ht]

theorem drop_tag (p x : List Char) (h : p.length = 4) :
    (p ++ x).drop 4 = x := by
  rw [← h, List.drop_left]

/-- The full fenced-block computation: a text consisting of a prelude
without backticks, an opening fence, an optional `toon`/`json` tag, a
backtick-free body, a closing fence and an arbitrary tail extracts to the
trimmed body. -/
theorem extract_fenced (pre tag body post : List Char)
    (hpre : backtick ∉ pre) (hbody : backtick ∉ body)
    (htag : tag = "toon".toList ∨ tag = "json".toList ∨
      (tag = [] ∧
        startsWithText ("toon".toList) (body ++ (tripleList ++ post)) = false ∧
        startsWithText ("json".toList) (body ++ (tripleList ++ post)) = false)) :
    extractFromCodeBlock
      (pre ++ (tripleList ++ (tag ++ (body ++ (tripleList ++ post))))) =
      trimChars body := by
  have h1 : splitAtTriple
      (pre ++ (tripleList ++ (tag ++ (body ++ (tripleList ++ post))))) =
      some (pre, tag ++ (body ++ (tripleList ++ post))) := by
    rw [splitAtTriple_append_free pre _ hpre, splitAtTriple_tripleHead]
    simp
  have hX : splitAtTriple (body ++ (tripleList ++ post)) =
      some (body, post) := by
    rw [splitAtTriple_append_free body _ hbody, splitAtTriple_tripleHead]
    simp
  have hrest : hasTriple (tag ++ (body ++ (tripleList ++ post))) = true := by
    refine hasTriple_append_left _ _ (hasTriple_append_left _ _ ?_)
    simp [hasTriple, splitAtTriple_tripleHead]
  unfold extractFromCodeBlock
  rw [h1]
  simp only [hrest, if_true]
  rcases htag with rfl | rfl | ⟨rfl, hnt, hnj⟩
  · rw [startsWithText_append_self]
    simp only [if_true]
    rw [drop_tag ("toon".toList) _ rfl, hX]
  · rw [startsWithText_toon_json, startsWithText_append_self]
    simp only [Bool.false_eq_true, if_false, if_true]
    rw [drop_tag ("json".toList) _ rfl, hX]
  · simp only [List.nil_append] at *
    rw [hnt, hnj]
    simp only [Bool.false_eq_true, if_false]
    rw [hX]

/- Section: claim theorems -/

/-- C1: totality of the public surface — for every input string to
`safeToonDecode` and `extractFromCodeBlock`, and every (acyclic by
construction) `SV` given to `sanitizeForToon`, `safeToonEncode` and
`safeToonEncodeString`, the function returns normally for arbitrary
behaviour of the external codecs: every `try`/`catch` branch yields
`Except.ok`, so no exception crosses the wrapper's boundary. -/
theorem totality_of_public_surface
    (tdec jparse : List Char → Except (List Char) SV)
    (tenc : SV → Except (List Char) (List Char))
    (jstringify : SV → List Char) (text : List Char) (v : SV) :
    (∃ r, safeToonDecode tdec jparse text = Except.ok r) ∧
    (∃ r, safeToonEncode tenc jstringify v = Except.ok r) ∧
    (∃ s, safeToonEncodeString tenc jstringify v = Except.ok s) ∧
    (∃ u, extractFromCodeBlock text = u) ∧
    (∃ w, sanitizeForToon v = w) := by
  refine ⟨?_, ?_, ?_, ⟨_, rfl⟩, ⟨_, rfl⟩⟩
  · unfold safeToonDecode decodeSteps
    cases htd : tdec (extractFromCodeBlock text) with
    | ok d => exact ⟨_, rfl⟩
    | error te =>
      cases hjp : jparse (extractFromCodeBlock text) with
      | ok d => exact ⟨_, rfl⟩
      | error je => exact ⟨_, rfl⟩
  · unfold safeToonEncode
    cases tenc (sanitizeForToon v) with
    | ok enc => exact ⟨_, rfl⟩
    | error e => exact ⟨_, rfl⟩
  · unfold safeToonEncodeString safeToonEncode
    cases tenc (sanitizeForToon v) with
    | ok enc => exact ⟨_, rfl⟩
    | error e => exact ⟨_, rfl⟩

/-- C7: sanitizer idempotence — on every string, and by structural
recursion on every StructuredValue, applying the rewrite twice equals
applying it once (no rule's output lies in a class a later rule rewrites
or deletes). -/
theorem sanitizer_idempotent :
    (∀ s : List Char,
      sanitizeForToonString (sanitizeForToonString s) =
        sanitizeForToonString s) ∧
    (∀ v : SV, sanitizeForToon (sanitizeForToon v) = sanitizeForToon v) :=
  ⟨sanitizeForToonString_idem, sanitizeForToon_idem⟩

/-- C8: sanitizer output character absence — no character of a sanitized
string lies in any rewritten or deleted class (double quote, backslash,
zero-width, BOM, non-breaking space, ASCII control, curly quotes); both
curly-quote kinds become a straight apostrophe (not a double quote),
backslash becomes a forward slash and non-breaking space becomes a
regular space. -/
theorem sanitizer_output_purged (s : List Char) (c : Char)
    (h : c ∈ sanitizeForToonString s) :
    touchedChar c = false ∧
    sanitizeForToonString [Char.ofNat 0x2018] = [aposChar] ∧
    sanitizeForToonString [Char.ofNat 0x2019] = [aposChar] ∧
    sanitizeForToonString [Char.ofNat 0x201C] = [aposChar] ∧
    sanitizeForToonString [Char.ofNat 0x201D] = [aposChar] ∧
    sanitizeForToonString [Char.ofNat 0x22] = [aposChar] ∧
    sanitizeForToonString [Char.ofNat 0x5C] = [slashChar] ∧
    sanitizeForToonString [Char.ofNat 0xA0] = [spaceChar] :=
  ⟨mem_sanitizeForToonString h, by decide, by decide, by decide, by decide,
    by decide, by decide, by decide⟩

theorem sanitizer_output_purged_witness :
    aposChar ∈ sanitizeForToonString ("“hello” \\".toList) ∧
    touchedChar aposChar = false := by
  have hm : aposChar ∈ sanitizeForToonString ("“hello” \\".toList) := by
    decide
  exact ⟨hm, (sanitizer_output_purged _ _ hm).1⟩

/-- C9: structural preservation — the sanitizer maps arrays element-wise,
objects value-wise with keys untouched, rewrites only string leaves, and
passes null, booleans and numbers through unchanged. -/
theorem sanitizer_structure_preserved (b : Bool) (n : Int) (s : List Char)
    (xs : List SV) (fs : List (List Char × SV)) :
    sanitizeForToon SV.null = SV.null ∧
    sanitizeForToon (SV.bool b) = SV.bool b ∧
    sanitizeForToon (SV.num n) = SV.num n ∧
    sanitizeForToon (SV.str s) = SV.str (sanitizeForToonString s) ∧
    sanitizeForToon (SV.arr xs) = SV.arr (xs.map sanitizeForToon) ∧
    sanitizeForToon (SV.obj fs) =
      SV.obj (fs.map (fun kv => (kv.1, sanitizeForToon kv.2))) := by
  refine ⟨rfl, rfl, rfl, rfl, ?_, ?_⟩
  · simp [sanitizeForToon, sanitizeForToonList_eq_map]
  · simp [sanitizeForToon, sanitizeForToonFields_eq_map]

/-- C2 (counterexample): the spec's DecodeResult invariant fails when the
successfully decoded document is itself `null` — on input `"null"` with a
failing compact decoder and a standard JSON parser, the result has
`format = json` but `data = null`, breaking the claimed iff. -/
theorem decode_result_invariant_counterexample :
    safeToonDecode tdecAlwaysFail jparseNullOnly ("null".toList) =
      Except.ok ⟨SV.null, TFormat.json, none⟩ ∧
    ¬ decodeInvariantSpec ⟨SV.null, TFormat.json, none⟩ := by
  constructor
  · rfl
  · intro hinv
    exact (hinv.1.mpr (Or.inr rfl)) rfl

/-- C2 (amended): for every result of `safeToonDecode`, non-null `data`
implies `format` is toon or json; `format = failed` implies `data = null`
with `error` populated by both underlying messages concatenated; and a
successful format carries no error.  (The converse of the first clause
fails exactly when the decoded document is itself null.) -/
theorem decode_result_invariant_amended
    (tdec jparse : List Char → Except (List Char) SV) (text : List Char)
    (r : ToonDecodeResult)
    (h : safeToonDecode tdec jparse text = Except.ok r) :
    (¬ r.data = SV.null → r.format = TFormat.toon ∨ r.format = TFormat.json) ∧
    (r.format = TFormat.failed → r.data = SV.null ∧
      ∃ te je, tdec (extractFromCodeBlock text) = Except.error te ∧
        jparse (extractFromCodeBlock text) = Except.error je ∧
        r.error = some (failMessage te je)) ∧
    ((r.format = TFormat.toon ∨ r.format = TFormat.json) → r.error = none) := by
  unfold safeToonDecode decodeSteps at h
  cases htd : tdec (extractFromCodeBlock text) with
  | ok d =>
    rw [htd] at h
    injection h with h'
    subst h'
    simp
  | error te =>
    rw [htd] at h
    cases hjp : jparse (extractFromCodeBlock text) with
    | ok d =>
      rw [hjp] at h
      injection h with h'
      subst h'
      simp
    | error je =>
      rw [hjp] at h
      injection h with h'
      subst h'
      exact ⟨by simp, fun _ => ⟨rfl, te, je, rfl, rfl, rfl⟩, by simp⟩

theorem decode_result_invariant_amended_witness :
    safeToonDecode tdecAlwaysFail jparseNullOnly ("x".toList) =
      Except.ok ⟨SV.null, TFormat.failed,
        some (failMessage ("toon failure".toList) ("json failure".toList))⟩ ∧
    (SV.null = SV.null ∧
      ∃ te je, tdecAlwaysFail (extractFromCodeBlock ("x".toList)) =
          Except.error te ∧
        jparseNullOnly (extractFromCodeBlock ("x".toList)) =
          Except.error je ∧
        (some (failMessage ("toon failure".toList) ("json failure".toList)) :
          Option (List Char)) = some (failMessage te je)) := by
  have h : safeToonDecode tdecAlwaysFail jparseNullOnly ("x".toList) =
      Except.ok ⟨SV.null, TFormat.failed,
        some (failMessage ("toon failure".toList)
          ("json failure".toList))⟩ := by rfl
  exact ⟨h,
    (decode_result_invariant_amended tdecAlwaysFail jparseNullOnly
      ("x".toList) _ h).2.1 rfl⟩

/-- C3: encode fallback fidelity — if the compact encoder fails on the
sanitized copy, `safeToonEncode` returns the JSON stringification of the
ORIGINAL, unsanitized value tagged `json`, and (given the JSON codec's
round-trip contract) parsing that string yields the original value. -/
theorem encode_fallback_fidelity
    (tenc : SV → Except (List Char) (List Char))
    (jstringify : SV → List Char)
    (jparse : List Char → Except (List Char) SV) (v : SV) (e : List Char)
    (hFail : tenc (sanitizeForToon v) = Except.error e)
    (hRound : jparse (jstringify v) = Except.ok v) :
    safeToonEncode tenc jstringify v =
      Except.ok ⟨jstringify v, TFormat.json⟩ ∧
    jparse (ToonEncodeResult.encoded ⟨jstringify v, TFormat.json⟩) =
      Except.ok v := by
  constructor
  · unfold safeToonEncode
    rw [hFail]
  · exact hRound

theorem encode_fallback_fidelity_witness :
    tencAlwaysFail (sanitizeForToon SV.null) =
      Except.error ("encode failure".toList) ∧
    jparseNullOnly (jstringifyNull SV.null) = Except.ok SV.null ∧
    safeToonEncode tencAlwaysFail jstringifyNull SV.null =
      Except.ok ⟨"null".toList, TFormat.json⟩ := by
  refine ⟨rfl, rfl, ?_⟩
  exact (encode_fallback_fidelity tencAlwaysFail jstringifyNull
    jparseNullOnly SV.null ("encode failure".toList) rfl rfl).1

/-- C4: total decode failure — when both decoders reject the
fence-stripped content, `safeToonDecode` returns `data = null`,
`format = failed`, and a non-empty error string that concatenates both
underlying messages. -/
theorem total_decode_failure
    (tdec jparse : List Char → Except (List Char) SV)
    (text te je : List Char)
    (h1 : tdec (extractFromCodeBlock text) = Except.error te)
    (h2 : jparse (extractFromCodeBlock text) = Except.error je) :
    safeToonDecode tdec jparse text =
      Except.ok ⟨SV.null, TFormat.failed, some (failMessage te je)⟩ ∧
    ¬ failMessage te je = [] := by
  constructor
  · unfold safeToonDecode decodeSteps
    rw [h1, h2]
  · intro hc
    have hlen := congrArg List.length hc
    simp [failMessage] at hlen

theorem total_decode_failure_witness :
    tdecAlwaysFail (extractFromCodeBlock ("\x7bnot: valid, at: all".toList)) =
      Except.error ("toon failure".toList) ∧
    jparseNullOnly (extractFromCodeBlock ("\x7bnot: valid, at: all".toList)) =
      Except.error ("json failure".toList) ∧
    safeToonDecode tdecAlwaysFail jparseNullOnly
        ("\x7bnot: valid, at: all".toList) =
      Except.ok ⟨SV.null, TFormat.failed,
        some (failMessage ("toon failure".toList) ("json failure".toList))⟩ ∧
    ¬ failMessage ("toon failure".toList) ("json failure".toList) = [] := by
  have h := total_decode_failure tdecAlwaysFail jparseNullOnly
    ("\x7bnot: valid, at: all".toList) ("toon failure".toList)
    ("json failure".toList) rfl rfl
  exact ⟨rfl, rfl, h.1, h.2⟩

/-- C5: round-trip via the compact path — for an ASCII-safe value (no
character any sanitizer rule rewrites) on which the compact encoder
succeeds, if the codec satisfies its decode-inverts-encode contract and
its output carries no backtick fence and no surrounding whitespace (so
the fence stripper passes it through), then encode tags `toon` and decode
of the encoded text returns the original value tagged `toon`. -/
theorem roundtrip_compact_path
    (tenc : SV → Except (List Char) (List Char))
    (tdec jparse : List Char → Except (List Char) SV)
    (jstringify : SV → List Char) (v : SV) (s : List Char)
    (hSafe : asciiSafeSV v = true)
    (hContract : ∀ w t, tenc w = Except.ok t → tdec t = Except.ok w)
    (hEnc : tenc v = Except.ok s)
    (hPlain : hasTriple s = false)
    (hTrim : trimChars s = s) :
    safeToonEncode tenc jstringify v = Except.ok ⟨s, TFormat.toon⟩ ∧
    safeToonDecode tdec jparse s =
      Except.ok ⟨v, TFormat.toon, none⟩ := by
  have hfix : sanitizeForToon v = v := sanitizeForToon_fixed v hSafe
  constructor
  · unfold safeToonEncode
    rw [hfix, hEnc]
  · have hnofence : hasFencedBlock s = false := by
      unfold hasFencedBlock
      cases hs : splitAtTriple s with
      | none => rfl
      | some pr => simp [hasTriple, hs] at hPlain
    have hex : extractFromCodeBlock s = s := by
      rw [extract_of_not_fenced hnofence, hTrim]
    unfold safeToonDecode decodeSteps
    rw [hex, hContract v s hEnc]

theorem roundtrip_compact_path_witness :
    asciiSafeSV (SV.str ("hi".toList)) = true ∧
    safeToonEncode tencStr jstringifyNull (SV.str ("hi".toList)) =
      Except.ok ⟨"Shi".toList, TFormat.toon⟩ ∧
    safeToonDecode tdecStr jparseNullOnly ("Shi".toList) =
      Except.ok ⟨SV.str ("hi".toList), TFormat.toon, none⟩ := by
  have hc : ∀ w t, tencStr w = Except.ok t → tdecStr t = Except.ok w := by
    intro w t h
    cases w <;> simp [tencStr] at h
    subst h
    simp [tdecStr]
  have h := roundtrip_compact_path tencStr tdecStr jparseNullOnly
    jstringifyNull (SV.str ("hi".toList)) ("Shi".toList) (by decide) hc rfl
    (by decide) (by decide)
  exact ⟨by decide, h.1, h.2⟩

/-- C6: fence-stripper contract — a text made of a backtick-free prelude,
an opening fence, an optional `toon`/`json` tag, a backtick-free body, a
closing fence and an arbitrary tail extracts to the trimmed body (the tag
is excluded, the first closing fence terminates extraction and everything
after it is ignored); a text with no complete fenced block is returned
trimmed and otherwise unchanged. -/
theorem fence_stripper_contract (pre tag body post text : List Char) :
    (backtick ∉ pre → backtick ∉ body →
      (tag = "toon".toList ∨ tag = "json".toList ∨
        (tag = [] ∧
          startsWithText ("toon".toList)
            (body ++ (tripleList ++ post)) = false ∧
          startsWithText ("json".toList)
            (body ++ (tripleList ++ post)) = false)) →
      extractFromCodeBlock
        (pre ++ (tripleList ++ (tag ++ (body ++ (tripleList ++ post))))) =
        trimChars body) ∧
    (hasFencedBlock text = false →
      extractFromCodeBlock text = trimChars text) :=
  ⟨fun hpre hbody htag => extract_fenced pre tag body post hpre hbody htag,
   fun h => extract_of_not_fenced h⟩

theorem fence_stripper_contract_witness :
    extractFromCodeBlock ("```toon\n.key\nvalue\n```".toList) =
      ".key\nvalue".toList ∧
    extractFromCodeBlock ("  plain text  ".toList) = "plain text".toList ∧
    extractFromCodeBlock ("```json\n[1]\n``` ignored ```tail```".toList) =
      "[1]".toList := by
  have h1 := (fence_stripper_contract [] ("toon".toList)
    ("\n.key\nvalue\n".toList) [] []).1 (by decide) (by decide) (Or.inl rfl)
  have h2 := (fence_stripper_contract [] [] [] []
    ("  plain text  ".toList)).2 (by decide)
  have h3 := (fence_stripper_contract [] ("json".toList) ("\n[1]\n".toList)
    (" ignored ```tail```".toList) []).1 (by decide) (by decide)
    (Or.inr (Or.inl rfl))
  refine ⟨?_, ?_, ?_⟩
  · have e1 : ("```toon\n.key\nvalue\n```".toList) =
        (([] : List Char) ++ (tripleList ++ ("toon".toList ++
          ("\n.key\nvalue\n".toList ++ (tripleList ++ []))))) := by decide
    rw [e1, h1]
    decide
  · rw [h2]
    decide
  · have e3 : ("```json\n[1]\n``` ignored ```tail```".toList) =
        (([] : List Char) ++ (tripleList ++ ("json".toList ++
          ("\n[1]\n".toList ++ (tripleList ++
            (" ignored ```tail```".toList)))))) := by decide
    rw [e3, h3]
    decide

/-- C10: unclosed fence — when the text has an opening backtick triple but
no later closing triple, `extractFromCodeBlock` performs no extraction and
returns the whole input trimmed, the backtick markers survive the trim,
and `safeToonDecode` therefore feeds the fence-bearing trimmed text to
both decoders. -/
theorem unclosed_fence_no_extraction
    (text pre rest : List Char)
    (tdec jparse : List Char → Except (List Char) SV)
    (h1 : splitAtTriple text = some (pre, rest))
    (h2 : hasTriple rest = false) :
    extractFromCodeBlock text = trimChars text ∧
    hasTriple (trimChars text) = true ∧
    safeToonDecode tdec jparse text =
      decodeSteps tdec jparse (trimChars text) := by
  have hnf : hasFencedBlock text = false := by
    unfold hasFencedBlock
    rw [h1]
    exact h2
  have hex := extract_of_not_fenced hnf
  refine ⟨hex, ?_, ?_⟩
  · exact hasTriple_trimChars (by simp [hasTriple, h1])
  · unfold safeToonDecode
    rw [hex]

theorem unclosed_fence_no_extraction_witness :
    splitAtTriple ("```toon\nabc".toList) =
      some ([], "toon\nabc".toList) ∧
    extractFromCodeBlock ("```toon\nabc".toList) =
      trimChars ("```toon\nabc".toList) ∧
    hasTriple (trimChars ("```toon\nabc".toList)) = true ∧
    safeToonDecode tdecAlwaysFail jparseNullOnly ("```toon\nabc".toList) =
      decodeSteps tdecAlwaysFail jparseNullOnly
        (trimChars ("```toon\nabc".toList)) := by
  have h := unclosed_fence_no_extraction ("```toon\nabc".toList) []
    ("toon\nabc".toList) tdecAlwaysFail jparseNullOnly (by decide)
    (by decide)
  exact ⟨by decide, h.1, h.2.1, h.2.2⟩
